import Mathlib

/-!
Verification of the ccommon bounded object pool and buffered logger
specification. The repository ships the public headers
(`include/rust/cc_pool_rs.h`, `include/rust/cc_log_rs.h`) and the test
suites (`test/pool/check_pool.c`, `test/log/check_log.c`); the pool and
logger implementations themselves are not part of the source tree, so the
operational definitions below are modelled from the specification
(`spec.md` §3, §4, §6) and cross-checked against the behaviour the test
suites assert. Buffers are identified by allocation order (a natural
number id); lifecycle-callback invocations are modelled as per-buffer
counters, and the buffer contents are abstracted to a single boolean
`canonical` flag (true exactly when the object is in the state that
`init` / `reset` establish).
-/

/-- Modelled from the spec: the closed status-code set of §7 for the pool
(`ConfigError` from construction validation, `PoolExhausted` from borrow
under exhaustion). -/
inductive PoolError where
  | ConfigError
  | PoolExhausted
  deriving DecidableEq

/-- Modelled from the spec: the pool handle state of §3. `capacity` keeps
the configured value, with 0 the "unbounded" sentinel (§8, §9). The free
list holds buffer ids; `next_id` is the number of buffers ever allocated,
so ids `0 .. next_id - 1` are exactly the allocated buffers.
`initCount`, `resetCount`, `destroyCount` count lifecycle-callback
invocations per buffer; `ndestroy` counts destroy-callback invocations
globally; `size` records the byte size each buffer was allocated with;
`canonical b` is true when buffer `b` holds the canonical
freshly-initialized object state; `inited` mirrors the handle's
initialized flag checked by the tests. -/
structure PoolState where
  capacity : Nat
  obj_size : Nat
  free_list : List Nat
  nused : Nat
  total_count : Nat
  next_id : Nat
  initCount : Nat → Nat
  resetCount : Nat → Nat
  destroyCount : Nat → Nat
  ndestroy : Nat
  size : Nat → Nat
  canonical : Nat → Bool
  inited : Bool

/-- Modelled from the spec: the raw handle produced by §4.1 create —
empty free list, zero counts, nothing eagerly allocated. -/
def mkPool (cap sz : Nat) : PoolState :=
  { capacity := cap
    obj_size := sz
    free_list := []
    nused := 0
    total_count := 0
    next_id := 0
    initCount := fun _ => 0
    resetCount := fun _ => 0
    destroyCount := fun _ => 0
    ndestroy := 0
    size := fun _ => 0
    canonical := fun _ => false
    inited := true }

/-- Modelled from the spec: §4.1 `create(config)` — validates
`object_size > 0` (`ConfigError` when zero), stores the configuration,
starts with an empty free list and `total_count = 0`. -/
def pool_create (cap sz : Nat) : Except PoolError PoolState :=
  if sz = 0 then .error .ConfigError else .ok (mkPool cap sz)

/-- Modelled from the spec: allocate a fresh buffer of `obj_size` bytes
and invoke `init` on it exactly once (§3 lifecycle, §4.2 step 2). The
fresh buffer is `next_id`; init leaves it in the canonical state. -/
def pool_alloc (s : PoolState) : Nat × PoolState :=
  let b := s.next_id
  (b, { s with
        next_id := b + 1
        total_count := s.total_count + 1
        initCount := fun x => if x = b then s.initCount x + 1 else s.initCount x
        size := fun x => if x = b then s.obj_size else s.size x
        canonical := fun x => if x = b then true else s.canonical x })

/-- Modelled from the spec: §4.2 `borrow(handle)` (the `pool_take_rs`
entry point). Pop the free list if non-empty (no callback); else if
unbounded or below capacity, allocate + `init` a fresh buffer; else
signal `PoolExhausted` synchronously. The borrowed-count `nused`
increases by one on success. -/
def pool_borrow (s : PoolState) : Except PoolError (Nat × PoolState) :=
  match s.free_list with
  | b :: rest => .ok (b, { s with free_list := rest, nused := s.nused + 1 })
  | [] =>
    if s.capacity = 0 ∨ s.total_count < s.capacity then
      let p := pool_alloc s
      .ok (p.1, { p.2 with nused := p.2.nused + 1 })
    else
      .error .PoolExhausted

/-- Modelled from the spec: §4.3 `return(handle, buffer)` (the
`pool_put_rs` entry point, buffer-state part). `reset` is invoked
(restoring the canonical state), then the buffer re-enters the free list
when that keeps `total_count ≤ capacity` (always, under normal
configuration); the unreachable overflow branch invokes `destroy` and
drops the buffer. -/
def pool_return (s : PoolState) (b : Nat) : PoolState :=
  let s1 := { s with
              resetCount := fun x => if x = b then s.resetCount x + 1 else s.resetCount x
              canonical := fun x => if x = b then true else s.canonical x }
  if s1.capacity = 0 ∨ s1.total_count ≤ s1.capacity then
    { s1 with free_list := b :: s1.free_list, nused := s1.nused - 1 }
  else
    { s1 with
      destroyCount := fun x => if x = b then s1.destroyCount x + 1 else s1.destroyCount x
      ndestroy := s1.ndestroy + 1
      total_count := s1.total_count - 1
      nused := s1.nused - 1 }

/-- Modelled from the spec: the preallocation loop — allocate and `init`
`n` buffers, pushing each onto the free list (§4.1). -/
def preallocN (s : PoolState) : Nat → PoolState
  | 0 => s
  | n + 1 =>
    let p := pool_alloc s
    preallocN { p.2 with free_list := p.1 :: p.2.free_list } n

/-- Modelled from the spec: §4.1 preallocation variant — creates and
inits up to `min(requested, capacity)` buffers (all of `requested` when
the capacity is the unbounded sentinel) and places them in the free
list. -/
def pool_prealloc (s : PoolState) (requested : Nat) : PoolState :=
  preallocN s (if s.capacity = 0 then requested else min requested s.capacity)

/-- Modelled from the spec: invoke the destroy callback once on each
buffer of a list (the teardown drain of §4.4), accumulating per-buffer
counts. -/
def destroyAll (dc : Nat → Nat) : List Nat → (Nat → Nat)
  | [] => dc
  | b :: rest => destroyAll (fun x => if x = b then dc x + 1 else dc x) rest

/-- Modelled from the spec: §4.4 `destroy(handle)` — invokes `destroy`
on every buffer in the free list, deallocates each, sets
`total_count = 0` and marks the handle no longer initialized.
Precondition (caller contract): no buffers are currently borrowed. -/
def pool_destroy (s : PoolState) : PoolState :=
  { s with
    destroyCount := destroyAll s.destroyCount s.free_list
    ndestroy := s.ndestroy + s.free_list.length
    free_list := []
    total_count := 0
    nused := 0
    inited := false }

/-- Modelled from the spec: a borrowing caller mutating its buffer (§5:
a borrowed buffer is exclusively owned by the caller), which may leave
the object outside the canonical state until the next `reset`. -/
def touchBuf (s : PoolState) (b : Nat) : PoolState :=
  { s with canonical := fun x => if x = b then false else s.canonical x }

/-- Modelled from the spec: the `pool_put_rs` ABI wrapper of
`cc_pool_rs.h` — takes the address of the caller's buffer pointer
(modelled as an `Option Nat` cell), performs the return, and leaves the
caller's pointer NULL (the test asserts `ck_assert_ptr_null` after
`POOL_RETURN_RS`). Result: (pool state after, cell contents after). -/
def pool_put_rs (s : PoolState) (cell : Option Nat) : PoolState × Option Nat :=
  match cell with
  | none => (s, none)
  | some b => (pool_return s b, none)

/-- Modelled from the spec: the `pool_destroy_handle_rs` ABI wrapper of
`cc_pool_rs.h` — takes the address of the caller's handle pointer,
destroys the pool, and leaves the caller's pointer NULL. Result: (the
drained pool state, for observation; cell contents after). -/
def pool_destroy_handle_rs (cell : Option PoolState) : Option PoolState × Option PoolState :=
  match cell with
  | none => (none, none)
  | some s => (some (pool_destroy s), none)

/-- The number of free buffers (`nfree` in the C accounting). -/
def nfree (s : PoolState) : Nat := s.free_list.length

/-- The pool state invariant as the spec states it (§3, §8): capacity
bound in the bounded case, free-list size bounded by the live-buffer
count, and conservation `borrowed_count + free_list.size = total_count`. -/
def PoolInv (s : PoolState) : Prop :=
  (s.capacity ≠ 0 → s.total_count ≤ s.capacity) ∧
  nfree s ≤ s.total_count ∧
  s.nused + nfree s = s.total_count

instance (s : PoolState) : Decidable (PoolInv s) := by
  unfold PoolInv; infer_instance

/-- Modelled from the spec: states reachable from a created (and
optionally preallocated) handle by valid caller behaviour — borrows,
returns of currently borrowed buffers, and caller mutation of borrowed
buffers. The list argument is the multiset of currently borrowed
buffer ids (ghost accounting; the pool itself only keeps `nused`). -/
inductive Reach : PoolState → List Nat → Prop where
  | start (cap sz req : Nat) (hsz : 0 < sz) :
      Reach (pool_prealloc (mkPool cap sz) req) []
  | borrow {s bor b s'} :
      Reach s bor → pool_borrow s = .ok (b, s') → Reach s' (b :: bor)
  | ret {s bor b} :
      Reach s bor → b ∈ bor → Reach (pool_return s b) (bor.erase b)
  | touch {s bor b} :
      Reach s bor → b ∈ bor → Reach (touchBuf s b) bor

/-- The full inductive invariant carried through reachability proofs:
the spec's accounting invariants plus ghost facts about buffer ids —
`bor` tracks the borrowed buffers, every live buffer id is below
`next_id`, free and borrowed buffers are pairwise distinct, `init` has
run exactly once on each allocated buffer and never on an unallocated
one, and every free buffer is in the canonical state. -/
structure GInv (s : PoolState) (bor : List Nat) : Prop where
  cap_ok : s.capacity ≠ 0 → s.total_count ≤ s.capacity
  conserv : s.nused + s.free_list.length = s.total_count
  bor_count : s.nused = bor.length
  nodup : (s.free_list ++ bor).Nodup
  lt_next : ∀ b ∈ s.free_list ++ bor, b < s.next_id
  init_once : ∀ b, s.initCount b = if b < s.next_id then 1 else 0
  free_canon : ∀ b ∈ s.free_list, s.canonical b = true
  total_next : s.total_count = s.next_id

theorem ginv_mkPool (cap sz : Nat) : GInv (mkPool cap sz) [] := by
  constructor <;> simp [mkPool]

theorem ginv_preallocN (n : Nat) : ∀ (s : PoolState) (bor : List Nat), GInv s bor →
    (s.capacity ≠ 0 → s.total_count + n ≤ s.capacity) → GInv (preallocN s n) bor := by
  induction n with
  | zero => intro s bor hI _; simpa [preallocN] using hI
  | succ n ih =>
    intro s bor hI hcap
    rw [preallocN]
    apply ih
    · constructor
      · intro h
        have := hcap h
        simp [pool_alloc]
        omega
      · have := hI.conserv
        simp [pool_alloc]
        omega
      · simpa [pool_alloc] using hI.bor_count
      · have hn := hI.nodup
        have hlt := hI.lt_next
        simp [pool_alloc, List.nodup_cons] at *
        refine ⟨⟨?_, ?_⟩, hn⟩
        · intro hmem
          exact absurd (hlt _ (Or.inl hmem)) (lt_irrefl _)
        · intro hmem
          exact absurd (hlt _ (Or.inr hmem)) (lt_irrefl _)
      · have hlt := hI.lt_next
        simp [pool_alloc] at *
        intro b hb
        have := hlt b hb
        omega
      · have hio := hI.init_once
        intro b
        simp only [pool_alloc]
        by_cases hb : b = s.next_id
        · subst hb
          have h0 := hio s.next_id
          simp at h0
          simp [h0]
        · rw [if_neg hb, hio b]
          by_cases hlt : b < s.next_id
          · have h1 : b < s.next_id + 1 := by omega
            simp [hlt, h1]
          · have h1 : ¬ b < s.next_id + 1 := by omega
            simp [hlt, h1]
      · have hfc := hI.free_canon
        intro b hb
        simp [pool_alloc] at hb ⊢
        rcases hb with hb | hb
        · simp [hb]
        · by_cases he : b = s.next_id
          · simp [he]
          · simp [he, hfc b hb]
      · have := hI.total_next
        simp [pool_alloc]
        omega
    · intro h
      simp [pool_alloc] at h ⊢
      have := hcap h
      omega

theorem ginv_start (cap sz req : Nat) : GInv (pool_prealloc (mkPool cap sz) req) [] := by
  unfold pool_prealloc
  apply ginv_preallocN _ _ _ (ginv_mkPool cap sz)
  intro h
  have hc : cap ≠ 0 := by simpa [mkPool] using h
  simp [mkPool, hc]

theorem ginv_borrow {s : PoolState} {bor : List Nat} {b : Nat} {s' : PoolState}
    (hI : GInv s bor) (hok : pool_borrow s = .ok (b, s')) : GInv s' (b :: bor) := by
  unfold pool_borrow at hok
  cases hf : s.free_list with
  | cons b0 rest =>
    rw [hf] at hok
    simp only [Except.ok.injEq, Prod.mk.injEq] at hok
    obtain ⟨hb, hs⟩ := hok
    subst hb
    subst hs
    constructor
    · exact hI.cap_ok
    · have hc := hI.conserv
      rw [hf] at hc
      simp at hc ⊢
      omega
    · have := hI.bor_count
      simp
      omega
    · have hn := hI.nodup
      rw [hf] at hn
      exact List.perm_middle.symm.nodup hn
    · have hlt := hI.lt_next
      intro x hx
      apply hlt
      rw [hf]
      simp at hx ⊢
      tauto
    · exact hI.init_once
    · intro x hx
      apply hI.free_canon
      rw [hf]
      simp at hx ⊢
      tauto
    · exact hI.total_next
  | nil =>
    rw [hf] at hok
    by_cases hc : s.capacity = 0 ∨ s.total_count < s.capacity
    · rw [if_pos hc] at hok
      simp only [pool_alloc, Except.ok.injEq, Prod.mk.injEq] at hok
      obtain ⟨hb, hs⟩ := hok
      subst hb
      subst hs
      constructor
      · intro h
        simp
        rcases hc with hc | hc
        · exact absurd hc h
        · omega
      · have hcv := hI.conserv
        rw [hf] at hcv
        simp [hf] at hcv ⊢
        omega
      · have := hI.bor_count
        simp
        omega
      · have hn := hI.nodup
        have hlt := hI.lt_next
        rw [hf] at hn hlt
        simp [hf] at hn hlt ⊢
        refine ⟨?_, hn⟩
        intro hmem
        exact absurd (hlt _ hmem) (lt_irrefl _)
      · have hlt := hI.lt_next
        rw [hf] at hlt
        simp [hf] at hlt ⊢
        intro x hx
        have := hlt x hx
        omega
      · have hio := hI.init_once
        intro x
        simp only []
        by_cases hx : x = s.next_id
        · subst hx
          have h0 := hio s.next_id
          simp at h0
          simp [h0]
        · rw [if_neg hx, hio x]
          by_cases hlt : x < s.next_id
          · have h1 : x < s.next_id + 1 := by omega
            simp [hlt, h1]
          · have h1 : ¬ x < s.next_id + 1 := by omega
            simp [hlt, h1]
      · intro x hx
        simp [hf] at hx
      · have := hI.total_next
        simp
        omega
    · rw [if_neg hc] at hok
      simp at hok

theorem ginv_return {s : PoolState} {bor : List Nat} {b : Nat}
    (hI : GInv s bor) (hb : b ∈ bor) : GInv (pool_return s b) (bor.erase b) := by
  have hcond : s.capacity = 0 ∨ s.total_count ≤ s.capacity := by
    by_cases hc : s.capacity = 0
    · exact Or.inl hc
    · exact Or.inr (hI.cap_ok hc)
  have hpos : 0 < bor.length := List.length_pos.mpr (List.ne_nil_of_mem hb)
  have hlen : (bor.erase b).length = bor.length - 1 := List.length_erase_of_mem hb
  unfold pool_return
  simp only []
  rw [if_pos hcond]
  constructor
  · exact hI.cap_ok
  · have := hI.conserv
    have := hI.bor_count
    simp
    omega
  · have := hI.bor_count
    simp
    omega
  · have hperm : List.Perm (s.free_list ++ bor) (b :: (s.free_list ++ bor.erase b)) :=
      (List.Perm.append_left s.free_list (List.perm_cons_erase hb)).trans List.perm_middle
    exact hperm.nodup hI.nodup
  · have hlt := hI.lt_next
    intro x hx
    simp at hx
    rcases hx with hx | hx | hx
    · subst hx
      exact hlt _ (by simp [hb])
    · exact hlt _ (by simp [hx])
    · exact hlt _ (by simp [List.mem_of_mem_erase hx])
  · exact hI.init_once
  · intro x hx
    simp at hx ⊢
    rcases hx with hx | hx
    · simp [hx]
    · by_cases he : x = b
      · simp [he]
      · simp [he]
        exact hI.free_canon x hx
  · exact hI.total_next

theorem ginv_touch {s : PoolState} {bor : List Nat} {b : Nat}
    (hI : GInv s bor) (hb : b ∈ bor) : GInv (touchBuf s b) bor := by
  have hdis : s.free_list.Disjoint bor := List.disjoint_of_nodup_append hI.nodup
  constructor
  · exact hI.cap_ok
  · exact hI.conserv
  · exact hI.bor_count
  · exact hI.nodup
  · exact hI.lt_next
  · exact hI.init_once
  · intro x hx
    simp [touchBuf] at hx ⊢
    have hne : x ≠ b := by
      intro he
      subst he
      exact hdis hx hb
    simp [hne]
    exact hI.free_canon x hx
  · exact hI.total_next

theorem reach_ginv {s : PoolState} {bor : List Nat} (h : Reach s bor) : GInv s bor := by
  induction h with
  | start cap sz req hsz => exact ginv_start cap sz req
  | borrow _ hok ih => exact ginv_borrow ih hok
  | ret _ hb ih => exact ginv_return ih hb
  | touch _ hb ih => exact ginv_touch ih hb

/-- Modelled from the spec: `n` sequential borrows with zero intervening
returns (the exhaustion and unbounded-sentinel scenarios of §8),
collecting the borrowed buffers in order; the first failure aborts the
run with its error. -/
def borrowN : PoolState → Nat → Except PoolError (List Nat × PoolState)
  | s, 0 => .ok ([], s)
  | s, n + 1 =>
    match pool_borrow s with
    | .error e => .error e
    | .ok (b, s') =>
      match borrowN s' n with
      | .error e => .error e
      | .ok (bs, s'') => .ok (b :: bs, s'')

theorem borrowN_alloc : ∀ (k : Nat) (s : PoolState), s.free_list = [] →
    (s.capacity = 0 ∨ s.total_count + k ≤ s.capacity) →
    ∃ s', borrowN s k = .ok (List.range' s.next_id k, s') ∧
      s'.free_list = [] ∧ s'.capacity = s.capacity ∧
      s'.total_count = s.total_count + k ∧ s'.next_id = s.next_id + k ∧
      s'.nused = s.nused + k := by
  intro k
  induction k with
  | zero =>
    intro s hf _
    exact ⟨s, by simp [borrowN, List.range'], hf, rfl, by omega, by omega, by omega⟩
  | succ n ih =>
    intro s hf hcap
    have hcond : s.capacity = 0 ∨ s.total_count < s.capacity := by
      rcases hcap with h | h
      · exact Or.inl h
      · right; omega
    have hbor : pool_borrow s = .ok (s.next_id,
        { s with next_id := s.next_id + 1
                 total_count := s.total_count + 1
                 initCount := fun x => if x = s.next_id then s.initCount x + 1 else s.initCount x
                 size := fun x => if x = s.next_id then s.obj_size else s.size x
                 canonical := fun x => if x = s.next_id then true else s.canonical x
                 nused := s.nused + 1 }) := by
      unfold pool_borrow
      rw [hf]
      rw [if_pos hcond]
      simp [pool_alloc, hf]
    obtain ⟨s', h1, h2, h3, h4, h5, h6⟩ := ih
      { s with next_id := s.next_id + 1
               total_count := s.total_count + 1
               initCount := fun x => if x = s.next_id then s.initCount x + 1 else s.initCount x
               size := fun x => if x = s.next_id then s.obj_size else s.size x
               canonical := fun x => if x = s.next_id then true else s.canonical x
               nused := s.nused + 1 }
      (by simpa using hf)
      (by simp; rcases hcap with h | h
          · exact Or.inl h
          · right; omega)
    refine ⟨s', ?_, h2, by simpa using h3, by simp at h4; omega, by simp at h5; omega,
      by simp at h6; omega⟩
    rw [borrowN, hbor]
    simp only [h1, List.range'_succ]

theorem borrow_exhausted {s : PoolState} (hf : s.free_list = []) (hc : s.capacity ≠ 0)
    (ht : ¬ s.total_count < s.capacity) : pool_borrow s = .error .PoolExhausted := by
  unfold pool_borrow
  rw [hf]
  rw [if_neg]
  intro h
  rcases h with h | h
  · exact hc h
  · exact ht h

theorem destroyAll_not_mem : ∀ (l : List Nat) (dc : Nat → Nat) (b : Nat),
    b ∉ l → destroyAll dc l b = dc b := by
  intro l
  induction l with
  | nil => intro dc b _; rfl
  | cons a rest ih =>
    intro dc b hb
    simp at hb
    rw [destroyAll, ih _ b hb.2]
    simp [hb.1]

theorem destroyAll_mem : ∀ (l : List Nat) (dc : Nat → Nat) (b : Nat),
    l.Nodup → b ∈ l → destroyAll dc l b = dc b + 1 := by
  intro l
  induction l with
  | nil => intro dc b _ hb; simp at hb
  | cons a rest ih =>
    intro dc b hnd hb
    rcases List.mem_cons.mp hb with hba | hbr
    · subst hba
      have hnr : b ∉ rest := (List.nodup_cons.mp hnd).1
      rw [destroyAll, destroyAll_not_mem rest _ b hnr]
      simp
    · have hna : b ≠ a := by
        intro he
        subst he
        exact absurd hbr (List.nodup_cons.mp hnd).1
      rw [destroyAll, ih _ b (List.nodup_cons.mp hnd).2 hbr]
      simp [hna]

theorem preallocN_counts : ∀ (n : Nat) (s : PoolState),
    (preallocN s n).total_count = s.total_count + n ∧
    (preallocN s n).next_id = s.next_id + n ∧
    (preallocN s n).free_list.length = s.free_list.length + n ∧
    (preallocN s n).capacity = s.capacity := by
  intro n
  induction n with
  | zero => intro s; simp [preallocN]
  | succ n ih =>
    intro s
    rw [preallocN]
    obtain ⟨h1, h2, h3, h4⟩ := ih
      { (pool_alloc s).2 with free_list := (pool_alloc s).1 :: (pool_alloc s).2.free_list }
    refine ⟨?_, ?_, ?_, ?_⟩ <;> simp [pool_alloc] at h1 h2 h3 h4 ⊢ <;> omega

/-- Modelled from the spec: the buffered logger state of §6. The logger
is an external collaborator whose implementation is not in the source
tree; modelled from the §6 contract and the behaviour `check_log.c`
asserts. `buf_cap` is the internal buffer capacity (0 means unbuffered),
`buffer` the bytes accepted but not yet flushed, `sink` the bytes
already written out to the backing file (or stderr); `nwrite`, `nskip`
and `nskip_byte` are the write / skipped-write / skipped-byte metric
counters. -/
structure LogState where
  buf_cap : Nat
  buffer : List Nat
  sink : List Nat
  nwrite : Nat
  nskip : Nat
  nskip_byte : Nat

/-- Modelled from the spec: §6 `create(path_or_none, buffer_capacity)` —
a fresh logger with empty buffer, empty backing file and zeroed
counters. -/
def log_create (buf_cap : Nat) : LogState :=
  { buf_cap := buf_cap, buffer := [], sink := [], nwrite := 0, nskip := 0, nskip_byte := 0 }

/-- Modelled from the spec: §6 `write(handle, bytes) → accepted`. An
unbuffered logger writes straight through; a buffered logger accepts the
message when it fits in the remaining buffer room, and otherwise drops
it whole, counting one skipped write and the message's bytes as skipped
(the integrity guarantee is "no partial records", not "no loss").
Returns 1 when accepted, 0 when dropped, as `log_write` does. -/
def log_write (st : LogState) (msg : List Nat) : Nat × LogState :=
  if st.buf_cap = 0 then
    (1, { st with sink := st.sink ++ msg, nwrite := st.nwrite + 1 })
  else if st.buffer.length + msg.length ≤ st.buf_cap then
    (1, { st with buffer := st.buffer ++ msg, nwrite := st.nwrite + 1 })
  else
    (0, { st with nskip := st.nskip + 1, nskip_byte := st.nskip_byte + msg.length })

/-- Modelled from the spec: flush the internal buffer to the backing
file. -/
def log_flush (st : LogState) : LogState :=
  { st with sink := st.sink ++ st.buffer, buffer := [] }

/-- Modelled from the spec: §6 `destroy(handle)` "flushes then releases"
— the state-level effect of `log_destroy` on the backing file. -/
def log_destroy (st : LogState) : LogState :=
  log_flush st

/-- Modelled from the spec: the pointer contract of `log_destroy(struct
logger **)` — takes the address of the caller's handle pointer, destroys
the logger, and leaves the caller's pointer NULL (the test asserts
`ck_assert_ptr_eq(logger, NULL)` afterwards). Result: (the flushed
state, for observation; cell contents after). -/
def log_destroy_ref (cell : Option LogState) : Option LogState × Option LogState :=
  match cell with
  | none => (none, none)
  | some st => (some (log_destroy st), none)

/-- C1: for every sequence of create/prealloc/borrow/return operations
on a pool handle, the state invariant holds at every observation point —
in the bounded case `total_count ≤ capacity`, the free-list size never
exceeds `total_count`, and `nused + nfree = total_count` (conservation). -/
theorem claim_C1_pool_invariant {s : PoolState} {bor : List Nat}
    (h : Reach s bor) : PoolInv s := by
  have hI := reach_ginv h
  refine ⟨hI.cap_ok, ?_, ?_⟩
  · have := hI.conserv
    unfold nfree
    omega
  · have := hI.conserv
    unfold nfree
    omega

theorem claim_C1_pool_invariant_witness :
    PoolInv (pool_prealloc (mkPool 2 8) 2) :=
  claim_C1_pool_invariant (Reach.start 2 8 2 (by decide))

/-- C2: for a pool with bounded capacity N and no preallocation, the
first N borrows (with zero intervening returns) all succeed, and the
(N+1)-th borrow — a further `pool_borrow` on the resulting state — fails
with `PoolExhausted`, returned synchronously as an error value. -/
theorem claim_C2_exhaustion (N sz : Nat) (hN : 0 < N) :
    ∃ ids s', borrowN (mkPool N sz) N = .ok (ids, s') ∧ ids.length = N ∧
      pool_borrow s' = .error .PoolExhausted := by
  obtain ⟨s', h1, h2, h3, h4, h5, h6⟩ :=
    borrowN_alloc N (mkPool N sz) (by simp [mkPool]) (by right; simp [mkPool])
  refine ⟨_, s', h1, by simp, ?_⟩
  apply borrow_exhausted h2
  · rw [h3]
    simp [mkPool]
    omega
  · rw [h4, h3]
    simp [mkPool]

theorem claim_C2_exhaustion_witness :
    ∃ ids s', borrowN (mkPool 3 8) 3 = .ok (ids, s') ∧ ids.length = 3 ∧
      pool_borrow s' = .error .PoolExhausted :=
  claim_C2_exhaustion 3 8 (by decide)

/-- C3: a pool created with configured capacity 0 is unbounded — no
borrow on such a pool ever fails with `PoolExhausted` — and in
particular 1000 sequential borrow-without-return calls from a fresh
pool all succeed and yield 1000 distinct buffers. -/
theorem claim_C3_unbounded :
    (∀ s : PoolState, s.capacity = 0 → ∃ b s', pool_borrow s = .ok (b, s')) ∧
    (∀ sz, ∃ ids s', borrowN (mkPool 0 sz) 1000 = .ok (ids, s') ∧
      ids.length = 1000 ∧ ids.Nodup) := by
  constructor
  · intro s hc
    unfold pool_borrow
    cases hf : s.free_list with
    | cons b rest =>
      exact ⟨b, _, rfl⟩
    | nil =>
      exact ⟨_, _, if_pos (Or.inl hc)⟩
  · intro sz
    obtain ⟨s', h1, _⟩ :=
      borrowN_alloc 1000 (mkPool 0 sz) (by simp [mkPool]) (Or.inl (by simp [mkPool]))
    exact ⟨_, s', h1, by simp, List.nodup_range' _ _⟩

theorem claim_C3_unbounded_witness :
    ∃ b s', pool_borrow (mkPool 0 16) = .ok (b, s') :=
  claim_C3_unbounded.1 (mkPool 0 16) (by decide)

/-- The fresh part of the id space has never been through `init` — the
hypothesis under which an allocation's single `init` call yields an
invocation count of exactly one. Holds in every reachable state. -/
def FreshUninit (s : PoolState) : Prop :=
  ∀ x, s.next_id ≤ x → s.initCount x = 0

/-- C4: borrow on a non-empty free list removes exactly the head buffer
and returns it, invoking no lifecycle callback, decrementing `nfree` by
one and incrementing `nused` by one; borrow on an empty free list with
`total_count < capacity` (or unbounded) allocates the fresh buffer
`next_id` of `object_size` bytes, invokes `init` on it exactly once,
increments `total_count`, and returns it. -/
theorem claim_C4_borrow_cases :
    (∀ (s : PoolState) (b : Nat) (rest : List Nat), s.free_list = b :: rest →
      ∃ s', pool_borrow s = .ok (b, s') ∧ s'.free_list = rest ∧
        nfree s' + 1 = nfree s ∧ s'.nused = s.nused + 1 ∧
        s'.total_count = s.total_count ∧
        (∀ x, s'.initCount x = s.initCount x) ∧
        (∀ x, s'.resetCount x = s.resetCount x) ∧
        (∀ x, s'.destroyCount x = s.destroyCount x)) ∧
    (∀ s : PoolState, s.free_list = [] →
      (s.capacity = 0 ∨ s.total_count < s.capacity) → FreshUninit s →
      ∃ s', pool_borrow s = .ok (s.next_id, s') ∧
        s'.initCount s.next_id = 1 ∧ s'.size s.next_id = s.obj_size ∧
        s'.total_count = s.total_count + 1 ∧ s'.nused = s.nused + 1 ∧
        s'.next_id = s.next_id + 1) := by
  constructor
  · intro s b rest hf
    unfold pool_borrow
    rw [hf]
    refine ⟨_, rfl, rfl, ?_, rfl, rfl, fun x => rfl, fun x => rfl, fun x => rfl⟩
    unfold nfree
    rw [hf]
    simp
  · intro s hf hc hfresh
    unfold pool_borrow
    rw [hf, if_pos hc]
    refine ⟨_, rfl, ?_, ?_, ?_, ?_, ?_⟩ <;> simp [pool_alloc]
    exact hfresh s.next_id (le_refl _)

theorem claim_C4_borrow_cases_witness :
    (∃ s', pool_borrow (pool_prealloc (mkPool 1 4) 1) = .ok (0, s')) ∧
    (∃ s', pool_borrow (mkPool 2 4) = .ok ((mkPool 2 4).next_id, s') ∧
      s'.initCount (mkPool 2 4).next_id = 1) := by
  constructor
  · obtain ⟨s', h, _⟩ :=
      claim_C4_borrow_cases.1 (pool_prealloc (mkPool 1 4) 1) 0 [] (by decide)
    exact ⟨s', h⟩
  · obtain ⟨s', h1, h2, _⟩ :=
      claim_C4_borrow_cases.2 (mkPool 2 4) (by decide) (by decide) (fun x _ => rfl)
    exact ⟨s', h1, h2⟩

/-- C5: over every valid borrow/return history, `init` is invoked
exactly once per allocated buffer and never on an unallocated one;
`reset` is invoked exactly once per return (each `pool_return b`
increments `resetCount b` by one and touches no other counter, and
`pool_borrow` invokes no reset); consequently a buffer handed out by a
borrow — in particular one re-borrowed after a return — is in the
canonical freshly-initialized state with `init` still invoked only
once. -/
theorem claim_C5_lifecycle :
    (∀ (s : PoolState) (bor : List Nat), Reach s bor →
      ∀ b, s.initCount b = if b < s.next_id then 1 else 0) ∧
    (∀ (s : PoolState) (b : Nat), (pool_return s b).resetCount b = s.resetCount b + 1 ∧
      ∀ x, x ≠ b → (pool_return s b).resetCount x = s.resetCount x) ∧
    (∀ (s : PoolState) (r : Nat × PoolState), pool_borrow s = .ok r →
      ∀ x, r.2.resetCount x = s.resetCount x) ∧
    (∀ (s : PoolState) (bor : List Nat) (b : Nat) (s' : PoolState), Reach s bor →
      pool_borrow s = .ok (b, s') → s'.canonical b = true ∧ s'.initCount b = 1) := by
  refine ⟨?_, ?_, ?_, ?_⟩
  · intro s bor h b
    exact (reach_ginv h).init_once b
  · intro s b
    refine ⟨?_, ?_⟩
    · unfold pool_return
      simp only []
      split <;> simp
    · intro x hx
      unfold pool_return
      simp only []
      split <;> simp [hx]
  · intro s r hok x
    unfold pool_borrow at hok
    cases hf : s.free_list with
    | cons b0 rest =>
      rw [hf] at hok
      simp only [Except.ok.injEq] at hok
      rw [← hok]
    | nil =>
      rw [hf] at hok
      by_cases hc : s.capacity = 0 ∨ s.total_count < s.capacity
      · rw [if_pos hc] at hok
        simp only [Except.ok.injEq] at hok
        rw [← hok]
        simp [pool_alloc]
      · rw [if_neg hc] at hok
        simp at hok
  · intro s bor b s' h hok
    have hI := reach_ginv h
    unfold pool_borrow at hok
    cases hf : s.free_list with
    | cons b0 rest =>
      rw [hf] at hok
      simp only [Except.ok.injEq, Prod.mk.injEq] at hok
      obtain ⟨hb, hs⟩ := hok
      subst hb
      subst hs
      have hmem : b0 ∈ s.free_list ++ bor := by
        rw [hf]
        simp
      constructor
      · exact hI.free_canon b0 (by rw [hf]; simp)
      · have h1 := hI.init_once b0
        simp [h1, hI.lt_next b0 hmem]
    | nil =>
      rw [hf] at hok
      by_cases hc : s.capacity = 0 ∨ s.total_count < s.capacity
      · rw [if_pos hc] at hok
        simp only [pool_alloc, Except.ok.injEq, Prod.mk.injEq] at hok
        obtain ⟨hb, hs⟩ := hok
        subst hb
        subst hs
        have h0 := hI.init_once s.next_id
        simp at h0
        simp [h0]
      · rw [if_neg hc] at hok
        simp at hok

theorem claim_C5_lifecycle_witness :
    (pool_prealloc (mkPool 2 4) 2).initCount 0 = 1 ∧
    (pool_return (mkPool 2 4) 0).resetCount 0 = (mkPool 2 4).resetCount 0 + 1 := by
  constructor
  · have h := claim_C5_lifecycle.1 _ _ (Reach.start 2 4 2 (by decide)) 0
    rw [h]
    decide
  · exact (claim_C5_lifecycle.2.1 (mkPool 2 4) 0).1

/-- C6: destroying a pool handle in a reachable state with no
outstanding borrows and M live buffers (all returned) invokes the
destroy callback exactly M times — once per buffer in the free list —
and leaves `total_count = 0`, `nfree = 0` and the handle no longer
initialized. -/
theorem claim_C6_teardown {s : PoolState} {bor : List Nat} {M : Nat}
    (h : Reach s bor) (hn : s.nused = 0) (hM : s.total_count = M) :
    (pool_destroy s).ndestroy = s.ndestroy + M ∧
    (∀ b ∈ s.free_list, (pool_destroy s).destroyCount b = s.destroyCount b + 1) ∧
    (pool_destroy s).total_count = 0 ∧ nfree (pool_destroy s) = 0 ∧
    (pool_destroy s).inited = false := by
  have hI := reach_ginv h
  have hlen : s.free_list.length = M := by
    have := hI.conserv
    omega
  refine ⟨?_, ?_, rfl, rfl, rfl⟩
  · simp [pool_destroy, hlen]
  · intro b hb
    have hnd : s.free_list.Nodup := hI.nodup.of_append_left
    simp only [pool_destroy]
    exact destroyAll_mem s.free_list s.destroyCount b hnd hb

theorem claim_C6_teardown_witness :
    (pool_destroy (pool_prealloc (mkPool 2 4) 2)).ndestroy =
      (pool_prealloc (mkPool 2 4) 2).ndestroy + 2 ∧
    (pool_destroy (pool_prealloc (mkPool 2 4) 2)).total_count = 0 :=
  ⟨(@claim_C6_teardown (pool_prealloc (mkPool 2 4) 2) [] 2
      (Reach.start 2 4 2 (by decide)) (by decide) (by decide)).1,
   (@claim_C6_teardown (pool_prealloc (mkPool 2 4) 2) [] 2
      (Reach.start 2 4 2 (by decide)) (by decide) (by decide)).2.2.1⟩

/-- C7: create initializes a pool with an empty free list and
`total_count = 0` without eagerly allocating any buffer (`next_id = 0`);
preallocating k buffers on a pool with configured capacity k creates and
inits exactly k buffers and places them all in the free list
(`nfree = k`); preallocating 0 allocates nothing (`nfree` stays 0). -/
theorem claim_C7_create_prealloc (cap sz k : Nat) (hsz : sz ≠ 0) :
    (∃ s, pool_create cap sz = .ok s ∧ s.free_list = [] ∧ s.total_count = 0 ∧
      s.next_id = 0 ∧ s.nused = 0) ∧
    (nfree (pool_prealloc (mkPool k sz) k) = k ∧
      (pool_prealloc (mkPool k sz) k).total_count = k ∧
      (pool_prealloc (mkPool k sz) k).next_id = k ∧
      (∀ b, (pool_prealloc (mkPool k sz) k).initCount b = if b < k then 1 else 0)) ∧
    nfree (pool_prealloc (mkPool cap sz) 0) = 0 := by
  refine ⟨?_, ?_, ?_⟩
  · refine ⟨mkPool cap sz, ?_, rfl, rfl, rfl, rfl⟩
    simp [pool_create, hsz]
  · have hreq : (if (mkPool k sz).capacity = 0 then k else min k (mkPool k sz).capacity) = k := by
      simp [mkPool]
    have hpre : pool_prealloc (mkPool k sz) k = preallocN (mkPool k sz) k := by
      rw [pool_prealloc, hreq]
    obtain ⟨h1, h2, h3, _⟩ := preallocN_counts k (mkPool k sz)
    have hG := ginv_start k sz k
    rw [pool_prealloc, hreq] at hG
    refine ⟨?_, ?_, ?_, ?_⟩
    · unfold nfree
      rw [hpre, h3]
      simp [mkPool]
    · rw [hpre, h1]
      simp [mkPool]
    · rw [hpre, h2]
      simp [mkPool]
    · intro b
      have hio := hG.init_once b
      have hnk : (preallocN (mkPool k sz) k).next_id = k := by
        rw [h2]
        simp [mkPool]
      rw [hpre, hio, hnk]
  · have : (if (mkPool cap sz).capacity = 0 then 0 else min 0 (mkPool cap sz).capacity) = 0 := by
      simp [mkPool]
    unfold nfree
    rw [pool_prealloc, this]
    rfl

theorem claim_C7_create_prealloc_witness :
    (∃ s, pool_create 10 8 = .ok s ∧ s.free_list = [] ∧ s.total_count = 0 ∧
      s.next_id = 0 ∧ s.nused = 0) ∧
    nfree (pool_prealloc (mkPool 10 8) 10) = 10 :=
  ⟨(claim_C7_create_prealloc 10 8 10 (by decide)).1,
   (claim_C7_create_prealloc 10 8 10 (by decide)).2.1.1⟩

/-- C8: when the buffered logger's internal buffer cannot take the
message (full and not flushed), the write is dropped — `log_write`
returns 0, the skipped-write counter increases by one, the skipped-byte
counter increases by exactly the rejected message's length, and neither
the buffer, the file, nor the write counter changes; an accepted write
returns 1 and increments the write counter by one. -/
theorem claim_C8_write_skip (st : LogState) (msg : List Nat) :
    (st.buf_cap ≠ 0 → st.buf_cap < st.buffer.length + msg.length →
      (log_write st msg).1 = 0 ∧
      (log_write st msg).2.nskip = st.nskip + 1 ∧
      (log_write st msg).2.nskip_byte = st.nskip_byte + msg.length ∧
      (log_write st msg).2.nwrite = st.nwrite ∧
      (log_write st msg).2.buffer = st.buffer ∧
      (log_write st msg).2.sink = st.sink) ∧
    ((st.buf_cap = 0 ∨ st.buffer.length + msg.length ≤ st.buf_cap) →
      (log_write st msg).1 = 1 ∧ (log_write st msg).2.nwrite = st.nwrite + 1) := by
  constructor
  · intro h1 h2
    have h3 : ¬ (st.buffer.length + msg.length ≤ st.buf_cap) := by omega
    simp [log_write, h1, h3]
  · intro h
    rcases h with h | h
    · simp [log_write, h]
    · by_cases h0 : st.buf_cap = 0
      · simp [log_write, h0]
      · simp [log_write, h0, h]

theorem claim_C8_write_skip_witness :
    ((log_write (log_create 5) [0, 1, 2, 3, 4, 5, 6, 7, 8, 9, 10]).1 = 0 ∧
     (log_write (log_create 5) [0, 1, 2, 3, 4, 5, 6, 7, 8, 9, 10]).2.nskip =
       (log_create 5).nskip + 1 ∧
     (log_write (log_create 5) [0, 1, 2, 3, 4, 5, 6, 7, 8, 9, 10]).2.nskip_byte =
       (log_create 5).nskip_byte + 11 ∧
     (log_write (log_create 5) [0, 1, 2, 3, 4, 5, 6, 7, 8, 9, 10]).2.nwrite =
       (log_create 5).nwrite ∧
     (log_write (log_create 5) [0, 1, 2, 3, 4, 5, 6, 7, 8, 9, 10]).2.buffer =
       (log_create 5).buffer ∧
     (log_write (log_create 5) [0, 1, 2, 3, 4, 5, 6, 7, 8, 9, 10]).2.sink =
       (log_create 5).sink) ∧
    ((log_write (log_create 10) [0, 1, 2]).1 = 1 ∧
     (log_write (log_create 10) [0, 1, 2]).2.nwrite = (log_create 10).nwrite + 1) :=
  ⟨(claim_C8_write_skip (log_create 5) [0, 1, 2, 3, 4, 5, 6, 7, 8, 9, 10]).1
      (by decide) (by decide),
   (claim_C8_write_skip (log_create 10) [0, 1, 2]).2 (Or.inr (by decide))⟩

/-- C9: destroying a buffered logger flushes buffered data to the
backing file before releasing resources — after an accepted write to a
fresh logger whose buffer capacity exceeds the message length the file
is still empty, and after `log_destroy` the file contains exactly the
written message; with buffer capacity 0 the message is already in the
file immediately after the write. -/
theorem claim_C9_destroy_flushes (cap : Nat) (msg : List Nat) :
    (cap ≠ 0 → msg.length < cap →
      (log_write (log_create cap) msg).1 = 1 ∧
      (log_write (log_create cap) msg).2.sink = [] ∧
      (log_destroy (log_write (log_create cap) msg).2).sink = msg) ∧
    (log_write (log_create 0) msg).2.sink = msg := by
  constructor
  · intro h1 h2
    have hfit : msg.length ≤ cap := by omega
    simp [log_write, log_create, log_destroy, log_flush, h1, hfit]
  · simp [log_write, log_create]

theorem claim_C9_destroy_flushes_witness :
    ((log_write (log_create 100) [1, 2, 3]).1 = 1 ∧
     (log_write (log_create 100) [1, 2, 3]).2.sink = [] ∧
     (log_destroy (log_write (log_create 100) [1, 2, 3]).2).sink = [1, 2, 3]) ∧
    (log_write (log_create 0) [1, 2, 3]).2.sink = [1, 2, 3] :=
  ⟨(claim_C9_destroy_flushes 100 [1, 2, 3]).1 (by decide) (by decide),
   (claim_C9_destroy_flushes 0 [1, 2, 3]).2⟩

/-- C10: the return and destroy entry points null the caller's
reference — `pool_put_rs` (via `POOL_RETURN_RS`) performs the return and
leaves the caller's buffer pointer NULL, and `pool_destroy_handle_rs` /
`log_destroy` perform the teardown and leave the caller's handle pointer
NULL, so after every successful return or destroy the caller's pointer
is NULL. -/
theorem claim_C10_null_refs :
    (∀ (s : PoolState) (b : Nat), (pool_put_rs s (some b)).2 = none ∧
      (pool_put_rs s (some b)).1 = pool_return s b) ∧
    (∀ s : PoolState, (pool_destroy_handle_rs (some s)).2 = none ∧
      (pool_destroy_handle_rs (some s)).1 = some (pool_destroy s)) ∧
    (∀ st : LogState, (log_destroy_ref (some st)).2 = none ∧
      (log_destroy_ref (some st)).1 = some (log_destroy st)) :=
  ⟨fun _ _ => ⟨rfl, rfl⟩, fun _ => ⟨rfl, rfl⟩, fun _ => ⟨rfl, rfl⟩⟩
